import Mathlib

set_option maxRecDepth 8000

/-!
Verification of the `kemadev/repo-tmpl` scaffolding scripts.

The repository contains two bash entry points:
* the single-template variant (`part_000`): resolves the repository identity
  from the `origin` remote URL with three `grep -oP` patterns, sparse-clones
  the template repository, and copies the scratch directory into the working
  directory (`cp -r "$TEMP/" .`); it performs no token substitution;
* the multi-template variant (`part_001`): additionally takes a template name
  argument, checks that `template/NAME` exists in the clone, copies
  `"$REPO_PATH/"*` into the working directory, and runs
  `find . -type f -exec sed -i "s|REPONAMETMPL|$REPO_NAME|g"`.

Every definition below is a shallow embedding of the corresponding shell
construct, working over `List Char`.
-/

/-- Characters of the POSIX `[:space:]` class, as matched by the
`[[:space:]]` bracket expressions inside the grep patterns. -/
def isSpaceCh (c : Char) : Bool :=
  c == ' ' || c == '\t' || c == '\n' || c == '\x0b' || c == '\x0c' || c == '\r'

/-- The character class `[^\/[:space:]]` used for the host and organization
captures: anything but `/` and whitespace. -/
def isHostOrgCh (c : Char) : Bool :=
  !(c == '/') && !(isSpaceCh c)

/-- The character class `[^[:space:]]` used for the repository capture:
anything but whitespace. -/
def isRepoCh (c : Char) : Bool :=
  !(isSpaceCh c)

/-- The characters of the literal `https://`. -/
def schemeChars : List Char := "https://".data

/-- Embedding of `REPO_NAME="${REPO_URL#https://}"`: strip one leading
`https://` if present. -/
def stripScheme (s : List Char) : List Char :=
  if schemeChars.isPrefixOf s then s.drop 8 else s

/-- Embedding of `grep -oP "^([^\/[:space:]]+)(?=.*)"`: the output is the
longest leading run of non-`/`, non-space characters; `grep` fails (exit 1)
when that run is empty, which the `Option` records.  The `(?=.*)` lookahead
always succeeds and is dropped. -/
def hostMatch (s : List Char) : Option (List Char) :=
  if s.takeWhile isHostOrgCh = [] then none else some (s.takeWhile isHostOrgCh)

/-- The remainder of the line after the host capture. -/
def afterHost (s : List Char) : List Char := s.dropWhile isHostOrgCh

/-- Embedding of `grep -oP "^([^\/[:space:]]+)\/\K([^\/[:space:]]+)(?=.*)"`:
after the (greedy, hence maximal) host run there must be a literal `/`,
followed by a nonempty run of class characters, which `\K` makes the
output. -/
def orgMatch (s : List Char) : Option (List Char) :=
  if s.takeWhile isHostOrgCh = [] then none
  else
    match afterHost s with
    | [] => none
    | c :: rest =>
      if c = '/' then
        if rest.takeWhile isHostOrgCh = [] then none
        else some (rest.takeWhile isHostOrgCh)
      else none

/-- The four characters of the literal `.git` recognised by the optional
`(?:\.git)?` group. -/
def dotGit : List Char := ['.', 'g', 'i', 't']

/-- Whether the PCRE lookahead `(?=$|\/[^\/[:space:]]+)` succeeds at the
current position: end of line, or a `/` followed by at least one
non-`/` non-space character. -/
def lookaheadOk : List Char → Bool
  | [] => true
  | [_] => false
  | a :: b :: _ => a == '/' && isHostOrgCh b

/-- Whether the literal `.git` of the optional group matches at the current
position. -/
def startsDotGit : List Char → Bool
  | a :: b :: c :: d :: _ => a == '.' && b == 'g' && c == 'i' && d == 't'
  | _ => false

/-- Backtracking loop of the lazy pattern `([^[:space:]]+?)(?:\.git)?`
followed by the lookahead `(?=$|\/[^\/[:space:]]+)`.  `acc` is the text the
lazy group has consumed so far (at least one character).  At each position
PCRE first tries to take the greedy optional `.git` and satisfy the
lookahead after it, then to satisfy the lookahead directly, and otherwise
extends the lazy group by one (non-space) character.  The returned value is
the whole match after `\K`, i.e. including a consumed `.git`. -/
def repoScan : List Char → List Char → Option (List Char)
  | [], acc => some acc
  | c :: rest, acc =>
    if startsDotGit (c :: rest) = true ∧ lookaheadOk (rest.drop 3) = true then
      some (acc ++ dotGit)
    else if lookaheadOk (c :: rest) = true then
      some acc
    else if isRepoCh c = true then
      repoScan rest (acc ++ [c])
    else
      none

/-- The repository part of
`grep -oP "^(host)\/(org)\/\K([^[:space:]]+?)(?:\.git)?(?=$|\/[^\/[:space:]]+)"`,
applied to the text after `host/org/`: the lazy group must consume at least
one character before the scan loop runs. -/
def repoGrep : List Char → Option (List Char)
  | [] => none
  | c :: rest => if isRepoCh c = true then repoScan rest [c] else none

/-- Embedding of the full third grep: navigate past the (maximal) host run,
its `/`, the (maximal) organization run and its `/`, then run the
lazy-repository scan on the remainder. -/
def rawRepoMatch (s : List Char) : Option (List Char) :=
  match orgMatch s with
  | none => none
  | some _ =>
    match afterHost s with
    | [] => none
    | _ :: rest =>
      match rest.dropWhile isHostOrgCh with
      | [] => none
      | c2 :: r2 => if c2 = '/' then repoGrep r2 else none

/-- Embedding of `sed "s|.git||g"` applied to the grep output: the dot is an
unescaped regex metacharacter, so the pattern matches ANY character followed
by the literal `git`; `g` deletes every occurrence, resuming the scan right
after each (empty) replacement. -/
def sedGitAux : List Char → List Char
  | c :: a :: b :: d :: rest =>
    if a = 'g' ∧ b = 'i' ∧ d = 't' then sedGitAux rest
    else c :: sedGitAux (a :: b :: d :: rest)
  | s => s

/-- The `{host, organization, name}` triple of the spec's data model. -/
structure RepoIdentity where
  host : List Char
  org : List Char
  name : List Char
deriving DecidableEq, Repr

/-- The identity-resolution stage: strip the scheme, run the three greps
(each fails when its capture is empty), and post-process the repository
capture with `sed "s|.git||g"`. -/
def resolveIdentity (url : List Char) : Option RepoIdentity :=
  match hostMatch (stripScheme url), orgMatch (stripScheme url),
      rawRepoMatch (stripScheme url) with
  | some h, some o, some r => some ⟨h, o, sedGitAux r⟩
  | _, _, _ => none

/-- Convenience constructor for a well-formed HTTPS remote URL
`https://host/org/name`. -/
def mkUrl (h o n : List Char) : List Char :=
  schemeChars ++ h ++ '/' :: (o ++ '/' :: n)

/-- The fixed placeholder sentinel `REPO_NAME_TEMPLATE_KEY`. -/
def token : List Char := "REPONAMETMPL".data

/-- Embedding of `sed -i "s|REPONAMETMPL|$REPO_NAME|g"` on one file content:
replace the leftmost occurrence of the literal token by `repl` and resume
scanning after the inserted replacement (sed never rescans the replacement
text within a pass).  Faithful for replacement values free of the sed
metacharacters `|`, `&` and `\`, which holds for all inputs considered
here. -/
def replaceToken (repl : List Char) : List Char → List Char
  | c :: c2 :: c3 :: c4 :: c5 :: c6 :: c7 :: c8 :: c9 :: c10 :: c11 :: c12 :: rest =>
    if c = 'R' ∧ c2 = 'E' ∧ c3 = 'P' ∧ c4 = 'O' ∧ c5 = 'N' ∧ c6 = 'A' ∧
        c7 = 'M' ∧ c8 = 'E' ∧ c9 = 'T' ∧ c10 = 'M' ∧ c11 = 'P' ∧ c12 = 'L' then
      repl ++ replaceToken repl rest
    else
      c :: replaceToken repl (c2 :: c3 :: c4 :: c5 :: c6 :: c7 :: c8 :: c9 :: c10 :: c11 :: c12 :: rest)
  | s => s

/-- A regular file of the working tree: a path (relative, `/`-separated)
and its contents. -/
structure FileEntry where
  path : List Char
  content : List Char
deriving DecidableEq, Repr

/-- One file under `find . -type f -exec sed -i ...`: contents rewritten in
place, the path untouched. -/
def substFile (repl : List Char) (f : FileEntry) : FileEntry :=
  ⟨f.path, replaceToken repl f.content⟩

/-- The token-substitution pass over every regular file of the working
directory. -/
def substTree (repl : List Char) (fs : List FileEntry) : List FileEntry :=
  fs.map (substFile repl)

/-- Whether the glob `"$REPO_PATH/"*` matches the entry: bash globs do not
match names starting with a dot, so an entry whose top-level path component
is dot-prefixed is invisible to `cp -r "$REPO_PATH/"* .`. -/
def visible : FileEntry → Bool
  | ⟨[], _⟩ => true
  | ⟨c :: _, _⟩ => !(c == '.')

/-- Embedding of `cp -r "$REPO_PATH/"* .` (multi-template variant): every
glob-visible entry of the fetched subdirectory is copied to the same
relative path, overwriting an existing file at that path. -/
def materializeMulti (sub cwd : List FileEntry) : List FileEntry :=
  cwd.filter (fun g => !((sub.filter (fun f => visible f)).any (fun f => f.path == g.path)))
    ++ sub.filter (fun f => visible f)

/-- The hard-coded sparse-checkout path of the single-template variant. -/
def goAppChars : List Char := "template/go-app/".data

/-- Embedding of `cp -r "$TEMP/" .` (single-template variant): GNU `cp -r`
on a directory operand copies the directory ITSELF into the destination, so
the whole scratch clone lands under `./<scratch>/template/go-app/...`
rather than the subtree's contents landing in the working directory. -/
def copyScratchDir (scratch : List Char) (tmplTree cwd : List FileEntry) : List FileEntry :=
  let copied := tmplTree.map (fun f => FileEntry.mk (scratch ++ '/' :: (goAppChars ++ f.path)) f.content)
  cwd.filter (fun g => !(copied.any (fun f => f.path == g.path))) ++ copied

/-- Observable outcome of one run: process exit code, whether `git clone`
was reached (the only network access), whether the usage text was printed,
the user-facing messages echoed by the script itself, and the final working
directory. -/
structure RunResult where
  exitCode : Nat
  fetched : Bool
  usagePrinted : Bool
  messages : List (List Char)
  cwd : List FileEntry
deriving DecidableEq, Repr

/-- The message of `echo "${TEMPLATE_SUBDIR}/${TEMPLATE_NAME} does not exist in remote"`. -/
def notFoundMsg (name : List Char) : List Char :=
  "template".data ++ '/' :: (name ++ " does not exist in remote".data)

/-- Orchestrator of the multi-template variant (`part_001`), parameterised
by the collaborator outcomes: `cloneOk`/`cloneCode` for the network clone
and `subtree` for the presence and contents of `template/NAME` in the
template source.  Fidelity notes: `parse_args` rejects a missing or empty
first argument before anything else; inside `init_repo` the three identity
greps run inside `local` declarations, whose exit status `local` discards,
so under `set -e` a failed capture does NOT abort the run and the script
proceeds to `mktemp`/`git clone` regardless; `cp -r "$REPO_PATH/"* .`
fails (aborting before substitution) when the glob matches nothing; the
substitution value is the global `REPO_NAME`, i.e. the scheme-stripped
remote URL. -/
def multiRun (arg : Option (List Char)) (url : List Char) (cloneOk : Bool)
    (cloneCode : Nat) (subtree : Option (List FileEntry)) (cwd : List FileEntry) :
    RunResult :=
  match arg with
  | none => ⟨1, false, true, [], cwd⟩
  | some name =>
    if name = [] then ⟨1, false, true, [], cwd⟩
    else if cloneOk = false then ⟨cloneCode, true, false, [], cwd⟩
    else
      match subtree with
      | none => ⟨1, true, true, [notFoundMsg name], cwd⟩
      | some t =>
        if t.filter (fun f => visible f) = [] then ⟨1, true, false, [], cwd⟩
        else ⟨0, true, false, [], substTree (stripScheme url) (materializeMulti t cwd)⟩

/-- Orchestrator of the single-template variant (`part_000`).  Its identity
captures are plain (non-`local`) assignments, so under `set -e` the first
failing grep aborts the script with the grep's exit status 1, before
`mktemp` and `git clone`; on success the scratch directory (basename
`scratch`) is copied into the working directory by `cp -r "$TEMP/" .`, and
no token substitution is performed. -/
def singleRun (url scratch : List Char) (cloneOk : Bool) (cloneCode : Nat)
    (tmplTree cwd : List FileEntry) : RunResult :=
  match hostMatch (stripScheme url) with
  | none => ⟨1, false, false, [], cwd⟩
  | some _ =>
    match orgMatch (stripScheme url) with
    | none => ⟨1, false, false, [], cwd⟩
    | some _ =>
      match rawRepoMatch (stripScheme url) with
      | none => ⟨1, false, false, [], cwd⟩
      | some _ =>
        if cloneOk = false then ⟨cloneCode, true, false, [], cwd⟩
        else ⟨0, true, false, [], copyScratchDir scratch tmplTree cwd⟩

/-- The remote URL of end-to-end scenario 1. -/
def url1 : List Char := "https://github.com/acme/widgets.git".data

/-- Extract of the template file `cmd/REPONAMETMPL/main.go` (its line 46),
which contains the placeholder token. -/
def line46 : List Char := "github.com/kemadev/REPONAMETMPL/cmd/REPONAMETMPL".data

/-- The template file carrying the token, at its real relative path. -/
def tmplFile : FileEntry := ⟨"cmd/REPONAMETMPL/main.go".data, line46⟩

/-- A one-file template subtree as fetched for `template/go-app`. -/
def tree0 : List FileEntry := [tmplFile]

/-- A concrete scratch-directory basename as produced by
`mktemp -d -t init-repo-XXXXXX`. -/
def scratch0 : List Char := "init-repo-Ab12Cd".data

/-- A hidden (dot-prefixed) top-level entry of a template subtree, such as a
`.github` workflow file. -/
def hiddenFile : FileEntry := ⟨".github/workflows/ci.yaml".data, "name: ci".data⟩

/-- A glob-visible top-level entry of a template subtree whose content holds
the placeholder token. -/
def visFile : FileEntry := ⟨"go.mod".data, "module REPONAMETMPL".data⟩

/-- A template subtree mixing a hidden and a visible entry. -/
def sub0 : List FileEntry := [hiddenFile, visFile]

/-- A token-free file, untouched by the substitution pass. -/
def plainFile : FileEntry := ⟨"README.md".data, "a scaffolded repository".data⟩

/-- A one-file tree whose content is exactly the placeholder token. -/
def tokTree : List FileEntry := [⟨"f.txt".data, token⟩]

/-- The remote URL of a repository literally named like the placeholder
token; it resolves successfully and its scheme-stripped form contains the
token. -/
def urlTok : List Char := "https://github.com/acme/REPONAMETMPL".data

theorem sedGitAux_cons4 (c a b d : Char) (rest : List Char) :
    sedGitAux (c :: a :: b :: d :: rest) =
      if a = 'g' ∧ b = 'i' ∧ d = 't' then sedGitAux rest
      else c :: sedGitAux (a :: b :: d :: rest) := rfl

theorem takeWhile_class_append (h rest : List Char)
    (hcl : ∀ c ∈ h, isHostOrgCh c = true) :
    List.takeWhile isHostOrgCh (h ++ '/' :: rest) = h := by
  induction h with
  | nil =>
    have hs : isHostOrgCh '/' = false := by decide
    simp [List.takeWhile_cons, hs]
  | cons c h ih =>
    have hc : isHostOrgCh c = true := hcl c (List.mem_cons_self c h)
    have ih' := ih (fun d hd => hcl d (List.mem_cons_of_mem c hd))
    simp [List.takeWhile_cons, hc, ih']

theorem dropWhile_class_append (h rest : List Char)
    (hcl : ∀ c ∈ h, isHostOrgCh c = true) :
    List.dropWhile isHostOrgCh (h ++ '/' :: rest) = '/' :: rest := by
  induction h with
  | nil =>
    have hs : isHostOrgCh '/' = false := by decide
    simp [List.dropWhile_cons, hs]
  | cons c h ih =>
    have hc : isHostOrgCh c = true := hcl c (List.mem_cons_self c h)
    have ih' := ih (fun d hd => hcl d (List.mem_cons_of_mem c hd))
    simp [List.dropWhile_cons, hc, ih']

theorem lookaheadOk_class_cons (c : Char) (l : List Char)
    (hc : isHostOrgCh c = true) : lookaheadOk (c :: l) = false := by
  have : ¬(c == '/') = true := by
    intro hb
    rw [beq_iff_eq] at hb
    subst hb
    exact absurd hc (by decide)
  cases l with
  | nil => rfl
  | cons b l =>
    show (c == '/' && isHostOrgCh b) = false
    cases hcb : (c == '/') with
    | false => rfl
    | true => exact absurd hcb this

theorem lookaheadOk_class_nil (l : List Char)
    (hcl : ∀ c ∈ l, isHostOrgCh c = true) (hla : lookaheadOk l = true) :
    l = [] := by
  cases l with
  | nil => rfl
  | cons c l =>
    rw [lookaheadOk_class_cons c l (hcl c (List.mem_cons_self c l))] at hla
    exact absurd hla (by simp)

theorem repoScan_cons (c : Char) (rest acc : List Char) :
    repoScan (c :: rest) acc =
      if startsDotGit (c :: rest) = true ∧ lookaheadOk (rest.drop 3) = true then
        some (acc ++ dotGit)
      else if lookaheadOk (c :: rest) = true then some acc
      else if isRepoCh c = true then repoScan rest (acc ++ [c])
      else none := rfl

theorem class_isRepoCh (c : Char) (hc : isHostOrgCh c = true) : isRepoCh c = true := by
  simp only [isHostOrgCh, Bool.and_eq_true] at hc
  exact hc.2

theorem startsDotGit_iff (l : List Char) :
    startsDotGit l = true ↔ ∃ xs, l = '.' :: 'g' :: 'i' :: 't' :: xs := by
  rcases l with _ | ⟨a, _ | ⟨b, _ | ⟨c, _ | ⟨d, xs⟩⟩⟩⟩
  · simp [startsDotGit]
  · simp [startsDotGit]
  · simp [startsDotGit]
  · simp [startsDotGit]
  · show (a == '.' && b == 'g' && c == 'i' && d == 't') = true ↔ _
    simp only [Bool.and_eq_true, beq_iff_eq]
    constructor
    · rintro ⟨⟨⟨rfl, rfl⟩, rfl⟩, rfl⟩
      exact ⟨xs, rfl⟩
    · rintro ⟨xs', heq⟩
      injection heq with h1 heq
      injection heq with h2 heq
      injection heq with h3 heq
      injection heq with h4 heq
      exact ⟨⟨⟨h1, h2⟩, h3⟩, h4⟩

theorem startsDotGit_ne_dot (a : Char) (l : List Char) (ha : ¬ a = '.') :
    startsDotGit (a :: l) = false := by
  cases hb : startsDotGit (a :: l) with
  | false => rfl
  | true =>
    obtain ⟨xs, heq⟩ := (startsDotGit_iff (a :: l)).mp hb
    injection heq with h1 _
    exact absurd h1 ha

theorem repoScan_class : ∀ (rest acc : List Char),
    (∀ c ∈ rest, isHostOrgCh c = true) → repoScan rest acc = some (acc ++ rest)
  | [], acc, _ => by simp [repoScan]
  | c :: rest, acc, hcl => by
    have hc : isHostOrgCh c = true := hcl c (List.mem_cons_self c rest)
    have hrest : ∀ d ∈ rest, isHostOrgCh d = true :=
      fun d hd => hcl d (List.mem_cons_of_mem c hd)
    rw [repoScan_cons]
    by_cases h1 : startsDotGit (c :: rest) = true ∧ lookaheadOk (rest.drop 3) = true
    · rw [if_pos h1]
      obtain ⟨xs, heq⟩ := (startsDotGit_iff (c :: rest)).mp h1.1
      injection heq with h1c heq
      subst h1c
      subst heq
      have hxs : xs = [] := by
        apply lookaheadOk_class_nil xs
        · intro d hd
          exact hrest d (by simp [hd])
        · simpa using h1.2
      subst hxs
      rfl
    · rw [if_neg h1, lookaheadOk_class_cons c rest hc, if_neg (by simp),
        if_pos (class_isRepoCh c hc),
        repoScan_class rest (acc ++ [c]) hrest]
      simp

theorem repoScan_sep : ∀ (rest acc : List Char) (y : Char) (tail : List Char),
    (∀ c ∈ rest, isHostOrgCh c = true) → isHostOrgCh y = true →
    repoScan (rest ++ '/' :: y :: tail) acc = some (acc ++ rest)
  | [], acc, y, tail, _, hy => by
    rw [List.nil_append, repoScan_cons,
      startsDotGit_ne_dot '/' _ (by decide)]
    rw [if_neg (by simp)]
    have hla : lookaheadOk ('/' :: y :: tail) = true := by
      show ('/' == '/' && isHostOrgCh y) = true
      simp [hy]
    rw [if_pos hla]
    simp
  | c :: rest, acc, y, tail, hcl, hy => by
    have hc : isHostOrgCh c = true := hcl c (List.mem_cons_self c rest)
    have hrest : ∀ d ∈ rest, isHostOrgCh d = true :=
      fun d hd => hcl d (List.mem_cons_of_mem c hd)
    rw [List.cons_append, repoScan_cons]
    by_cases h1 : startsDotGit (c :: (rest ++ '/' :: y :: tail)) = true ∧
        lookaheadOk ((rest ++ '/' :: y :: tail).drop 3) = true
    · rw [if_pos h1]
      obtain ⟨xs, heq⟩ := (startsDotGit_iff _).mp h1.1
      injection heq with h1c heq
      subst h1c
      rcases rest with _ | ⟨b, _ | ⟨d, _ | ⟨e, rest3⟩⟩⟩
      · rw [List.nil_append] at heq
        injection heq with hbad _
        exact absurd hbad (by decide)
      · rw [List.cons_append, List.nil_append] at heq
        injection heq with _ heq
        injection heq with hbad _
        exact absurd hbad (by decide)
      · rw [List.cons_append, List.cons_append, List.nil_append] at heq
        injection heq with _ heq
        injection heq with _ heq
        injection heq with hbad _
        exact absurd hbad (by decide)
      · rw [List.cons_append, List.cons_append, List.cons_append] at heq
        injection heq with hb heq
        injection heq with hd heq
        injection heq with he heq
        subst hb
        subst hd
        subst he
        have h2 := h1.2
        rw [List.cons_append, List.cons_append, List.cons_append] at h2
        simp only [List.drop_succ_cons, List.drop_zero] at h2
        have h3 : rest3 = [] := by
          cases rest3 with
          | nil => rfl
          | cons z rest3 =>
            rw [List.cons_append,
              lookaheadOk_class_cons z _ (hrest z (by simp))] at h2
            exact absurd h2 (by simp)
        subst h3
        rfl
    · rw [if_neg h1, lookaheadOk_class_cons c _ hc, if_neg (by simp),
        if_pos (class_isRepoCh c hc),
        repoScan_sep rest (acc ++ [c]) y tail hrest hy]
      simp

theorem repoGrep_class (n : List Char) (hne : n ≠ [])
    (hcl : ∀ c ∈ n, isHostOrgCh c = true) : repoGrep n = some n := by
  cases n with
  | nil => exact absurd rfl hne
  | cons c rest =>
    show (if isRepoCh c = true then repoScan rest [c] else none) = some (c :: rest)
    rw [if_pos (class_isRepoCh c (hcl c (List.mem_cons_self c rest))),
      repoScan_class rest [c] (fun d hd => hcl d (List.mem_cons_of_mem c hd))]
    rfl

theorem repoGrep_sep (n : List Char) (y : Char) (tail : List Char) (hne : n ≠ [])
    (hcl : ∀ c ∈ n, isHostOrgCh c = true) (hy : isHostOrgCh y = true) :
    repoGrep (n ++ '/' :: y :: tail) = some n := by
  cases n with
  | nil => exact absurd rfl hne
  | cons c rest =>
    rw [List.cons_append]
    show (if isRepoCh c = true then repoScan (rest ++ '/' :: y :: tail) [c] else none) =
      some (c :: rest)
    rw [if_pos (class_isRepoCh c (hcl c (List.mem_cons_self c rest))),
      repoScan_sep rest [c] y tail (fun d hd => hcl d (List.mem_cons_of_mem c hd)) hy]
    rfl

theorem stripScheme_append (s : List Char) : stripScheme (schemeChars ++ s) = s := by
  rw [stripScheme, if_pos]
  · show (schemeChars ++ s).drop 8 = s
    have h8 : schemeChars.length = 8 := rfl
    rw [← h8, List.drop_left]
  · rw [List.isPrefixOf_iff_prefix]
    exact List.prefix_append schemeChars s

theorem hostMatch_parts (h rest : List Char) (hne : h ≠ [])
    (hcl : ∀ c ∈ h, isHostOrgCh c = true) :
    hostMatch (h ++ '/' :: rest) = some h := by
  rw [hostMatch, takeWhile_class_append h rest hcl, if_neg hne]

theorem orgMatch_parts (h o r : List Char) (hne : h ≠ [])
    (hcl : ∀ c ∈ h, isHostOrgCh c = true) (one : o ≠ [])
    (ocl : ∀ c ∈ o, isHostOrgCh c = true) :
    orgMatch (h ++ '/' :: (o ++ '/' :: r)) = some o := by
  unfold orgMatch afterHost
  rw [takeWhile_class_append h _ hcl, dropWhile_class_append h _ hcl, if_neg hne]
  dsimp only
  rw [if_pos rfl, takeWhile_class_append o r ocl, if_neg one]

theorem rawRepoMatch_parts (h o r : List Char) (hne : h ≠ [])
    (hcl : ∀ c ∈ h, isHostOrgCh c = true) (one : o ≠ [])
    (ocl : ∀ c ∈ o, isHostOrgCh c = true) :
    rawRepoMatch (h ++ '/' :: (o ++ '/' :: r)) = repoGrep r := by
  unfold rawRepoMatch afterHost
  rw [orgMatch_parts h o r hne hcl one ocl]
  dsimp only
  rw [dropWhile_class_append h _ hcl]
  dsimp only
  rw [dropWhile_class_append o r ocl]
  dsimp only
  rw [if_pos rfl]

theorem resolve_parts (h o r : List Char) (hne : h ≠ [])
    (hcl : ∀ c ∈ h, isHostOrgCh c = true) (one : o ≠ [])
    (ocl : ∀ c ∈ o, isHostOrgCh c = true) :
    resolveIdentity (mkUrl h o r) =
      (repoGrep r).map (fun m => ⟨h, o, sedGitAux m⟩) := by
  have hs : stripScheme (mkUrl h o r) = h ++ '/' :: (o ++ '/' :: r) := by
    rw [mkUrl, List.append_assoc, stripScheme_append]
  unfold resolveIdentity
  rw [hs, hostMatch_parts h _ hne hcl, orgMatch_parts h o r hne hcl one ocl,
    rawRepoMatch_parts h o r hne hcl one ocl]
  cases hrg : repoGrep r with
  | none => rfl
  | some m => rfl

theorem sedGit_sublist : (s : List Char) → List.Sublist (sedGitAux s) s
  | [] => List.Sublist.refl _
  | [c] => List.Sublist.refl _
  | [c, a] => List.Sublist.refl _
  | [c, a, b] => List.Sublist.refl _
  | c :: a :: b :: d :: rest => by
    rw [sedGitAux_cons4]
    by_cases h : a = 'g' ∧ b = 'i' ∧ d = 't'
    · rw [if_pos h]
      refine (sedGit_sublist rest).trans ?_
      exact ((((List.sublist_cons_self d rest).trans
        (List.sublist_cons_self b _)).trans
        (List.sublist_cons_self a _)).trans
        (List.sublist_cons_self c _))
    · rw [if_neg h]
      exact (sedGit_sublist (a :: b :: d :: rest)).cons₂ c

theorem sedGit_class (n : List Char) (hcl : ∀ c ∈ n, isHostOrgCh c = true) :
    ∀ c ∈ sedGitAux n, isHostOrgCh c = true :=
  fun c hc => hcl c ((sedGit_sublist n).subset hc)

theorem sedGit_append_dotGit : (s : List Char) → sedGitAux (s ++ dotGit) = sedGitAux s
  | [] => rfl
  | [c] => rfl
  | [c, a] => by
    show sedGitAux (c :: a :: '.' :: 'g' :: 'i' :: 't' :: []) = sedGitAux [c, a]
    rw [sedGitAux_cons4, if_neg (fun hx => absurd hx.2.1 (by decide))]
    rfl
  | [c, a, b] => by
    show sedGitAux (c :: a :: b :: '.' :: 'g' :: 'i' :: 't' :: []) = sedGitAux [c, a, b]
    rw [sedGitAux_cons4, if_neg (fun hx => absurd hx.2.2 (by decide))]
    rw [sedGitAux_cons4, if_neg (fun hx => absurd hx.2.1 (by decide))]
    rfl
  | c :: a :: b :: d :: rest => by
    simp only [List.cons_append]
    rw [sedGitAux_cons4, sedGitAux_cons4]
    by_cases h : a = 'g' ∧ b = 'i' ∧ d = 't'
    · rw [if_pos h, if_pos h]
      exact sedGit_append_dotGit rest
    · rw [if_neg h, if_neg h]
      have := sedGit_append_dotGit (a :: b :: d :: rest)
      simp only [List.cons_append] at this
      rw [this]

theorem replaceToken_cons12 (repl : List Char) (c c2 c3 c4 c5 c6 c7 c8 c9 c10 c11 c12 : Char)
    (rest : List Char) :
    replaceToken repl (c :: c2 :: c3 :: c4 :: c5 :: c6 :: c7 :: c8 :: c9 :: c10 :: c11 :: c12 :: rest) =
      if c = 'R' ∧ c2 = 'E' ∧ c3 = 'P' ∧ c4 = 'O' ∧ c5 = 'N' ∧ c6 = 'A' ∧
          c7 = 'M' ∧ c8 = 'E' ∧ c9 = 'T' ∧ c10 = 'M' ∧ c11 = 'P' ∧ c12 = 'L' then
        repl ++ replaceToken repl rest
      else
        c :: replaceToken repl (c2 :: c3 :: c4 :: c5 :: c6 :: c7 :: c8 :: c9 :: c10 :: c11 :: c12 :: rest) := rfl

theorem replaceToken_token (repl rest : List Char) :
    replaceToken repl (token ++ rest) = repl ++ replaceToken repl rest := by
  show replaceToken repl ('R' :: 'E' :: 'P' :: 'O' :: 'N' :: 'A' :: 'M' :: 'E' :: 'T' :: 'M' :: 'P' :: 'L' :: rest) = _
  rw [replaceToken_cons12, if_pos]
  exact ⟨rfl, rfl, rfl, rfl, rfl, rfl, rfl, rfl, rfl, rfl, rfl, rfl⟩

theorem replaceToken_cons (repl : List Char) (c : Char) (s : List Char)
    (h : ¬ token <+: (c :: s)) :
    replaceToken repl (c :: s) = c :: replaceToken repl s := by
  rcases s with _ | ⟨c2, s⟩
  · rfl
  rcases s with _ | ⟨c3, s⟩
  · rfl
  rcases s with _ | ⟨c4, s⟩
  · rfl
  rcases s with _ | ⟨c5, s⟩
  · rfl
  rcases s with _ | ⟨c6, s⟩
  · rfl
  rcases s with _ | ⟨c7, s⟩
  · rfl
  rcases s with _ | ⟨c8, s⟩
  · rfl
  rcases s with _ | ⟨c9, s⟩
  · rfl
  rcases s with _ | ⟨c10, s⟩
  · rfl
  rcases s with _ | ⟨c11, s⟩
  · rfl
  rcases s with _ | ⟨c12, s⟩
  · rfl
  rw [replaceToken_cons12, if_neg]
  rintro ⟨rfl, rfl, rfl, rfl, rfl, rfl, rfl, rfl, rfl, rfl, rfl, rfl⟩
  exact h ⟨s, rfl⟩

theorem replaceToken_of_token_absent (repl s : List Char) (h : ¬ token <:+: s) :
    replaceToken repl s = s := by
  induction s with
  | nil => rfl
  | cons c s ih =>
    have hp : ¬ token <+: (c :: s) := fun hp => h hp.isInfix
    rw [replaceToken_cons repl c s hp, ih (fun hi => h (List.infix_cons hi))]

theorem repl_infix_replaceToken (repl s : List Char) (h : token <:+: s) :
    repl <:+: replaceToken repl s := by
  induction s with
  | nil => exact absurd (List.infix_nil.mp h) (by decide)
  | cons c s ih =>
    by_cases hp : token <+: (c :: s)
    · obtain ⟨t, ht⟩ := hp
      rw [← ht, replaceToken_token]
      exact (List.prefix_append repl _).isInfix
    · rw [replaceToken_cons repl c s hp]
      rcases List.infix_cons_iff.mp h with h' | h'
      · exact absurd h' hp
      · exact List.infix_cons (ih h')

theorem substFile_id_of_no_token (repl : List Char) (f : FileEntry)
    (h : ¬ token <:+: f.content) : substFile repl f = f := by
  cases f with
  | mk p content =>
    simp only [substFile]
    rw [replaceToken_of_token_absent repl content h]

theorem substTree_id_of_no_token (repl : List Char) (gs : List FileEntry)
    (h : ∀ f ∈ gs, ¬ token <:+: f.content) : substTree repl gs = gs := by
  induction gs with
  | nil => rfl
  | cons g gs ih =>
    simp only [substTree, List.map_cons]
    rw [substFile_id_of_no_token repl g (h g (List.mem_cons_self g gs))]
    have := ih (fun f hf => h f (List.mem_cons_of_mem g hf))
    simp only [substTree] at this
    rw [this]

/-- C2: for every host, organization and repository name containing no
whitespace and no path separators, the Remote Identity Resolver applied to
`https://host/org/name` and to `https://host/org/name.git` yields the
identical `{host, organization, name}` triple. -/
theorem c2_suffix_insensitive (h o n : List Char) (hne : h ≠ [])
    (hcl : ∀ c ∈ h, isHostOrgCh c = true) (one : o ≠ [])
    (ocl : ∀ c ∈ o, isHostOrgCh c = true) (nne : n ≠ [])
    (ncl : ∀ c ∈ n, isHostOrgCh c = true) :
    resolveIdentity (mkUrl h o n) = resolveIdentity (mkUrl h o (n ++ dotGit)) := by
  have hgne : n ++ dotGit ≠ [] := by
    intro hx
    rw [List.append_eq_nil] at hx
    exact absurd hx.2 (by decide)
  have hgcl : ∀ c ∈ n ++ dotGit, isHostOrgCh c = true := by
    intro c hc
    rcases List.mem_append.mp hc with hc | hc
    · exact ncl c hc
    · have hd : ∀ d ∈ dotGit, isHostOrgCh d = true := by decide
      exact hd c hc
  rw [resolve_parts h o n hne hcl one ocl,
    resolve_parts h o (n ++ dotGit) hne hcl one ocl,
    repoGrep_class n nne ncl, repoGrep_class (n ++ dotGit) hgne hgcl]
  simp only [Option.map_some']
  rw [sedGit_append_dotGit n]

/-- Witness for C2 at the spec's scenario-1 data: `https://github.com/acme/widgets`
and `https://github.com/acme/widgets.git` resolve identically. -/
theorem c2_suffix_insensitive_witness :
    resolveIdentity (mkUrl ("github.com".data) ("acme".data) ("widgets".data)) =
      resolveIdentity (mkUrl ("github.com".data) ("acme".data) ("widgets".data ++ dotGit)) :=
  c2_suffix_insensitive ("github.com".data) ("acme".data) ("widgets".data)
    (by decide) (by decide) (by decide) (by decide) (by decide) (by decide)

/-- C3 counterexample: the claim says a version-control suffix is removed
only as a trailing `.git`, so `https://github.com/acme/mygitrepo` should
resolve to name `mygitrepo`; the code's `sed "s|.git||g"` (unescaped dot,
global) deletes the inner `ygit` and yields `mrepo` instead. -/
theorem c3_counterexample :
    resolveIdentity ("https://github.com/acme/mygitrepo".data) =
      some ⟨"github.com".data, "acme".data, "mrepo".data⟩ ∧
    "mrepo".data ≠ "mygitrepo".data := by decide

/-- C3 (amended): the resolved name is the path segment after
`host/organization/`, truncated at the next path separator or end of string,
post-processed by deleting every occurrence of any-character-followed-by-`git`
(the effect of `sed "s|.git||g"`), not only a trailing `.git`; the resulting
name still contains no path separator and no whitespace. -/
theorem c3_amended (h o n : List Char) (y : Char) (tail : List Char)
    (hne : h ≠ []) (hcl : ∀ c ∈ h, isHostOrgCh c = true) (one : o ≠ [])
    (ocl : ∀ c ∈ o, isHostOrgCh c = true) (nne : n ≠ [])
    (ncl : ∀ c ∈ n, isHostOrgCh c = true) (hy : isHostOrgCh y = true) :
    resolveIdentity (mkUrl h o n) = some ⟨h, o, sedGitAux n⟩ ∧
    resolveIdentity (mkUrl h o (n ++ '/' :: y :: tail)) = some ⟨h, o, sedGitAux n⟩ ∧
    ∀ c ∈ sedGitAux n, isHostOrgCh c = true := by
  refine ⟨?_, ?_, sedGit_class n ncl⟩
  · rw [resolve_parts h o n hne hcl one ocl, repoGrep_class n nne ncl]
    rfl
  · rw [resolve_parts h o (n ++ '/' :: y :: tail) hne hcl one ocl,
      repoGrep_sep n y tail nne ncl hy]
    rfl

/-- Witness for C3 (amended): `https://github.com/acme/mygitrepo` and the
nested `https://github.com/acme/mygitrepo/tree` both resolve with name
`sedGitAux "mygitrepo"`. -/
theorem c3_amended_witness :
    resolveIdentity (mkUrl ("github.com".data) ("acme".data) ("mygitrepo".data)) =
      some ⟨"github.com".data, "acme".data, sedGitAux ("mygitrepo".data)⟩ ∧
    resolveIdentity (mkUrl ("github.com".data) ("acme".data)
        ("mygitrepo".data ++ '/' :: 't' :: "ree".data)) =
      some ⟨"github.com".data, "acme".data, sedGitAux ("mygitrepo".data)⟩ ∧
    ∀ c ∈ sedGitAux ("mygitrepo".data), isHostOrgCh c = true :=
  c3_amended ("github.com".data) ("acme".data) ("mygitrepo".data) 't' ("ree".data)
    (by decide) (by decide) (by decide) (by decide) (by decide) (by decide) (by decide)

/-- C4: the multi-template variant wraps its three identity greps in
`local` declarations, so their nonzero exit status is discarded and
`set -e` does not abort: with the malformed remote `https://github.com`
(no organization, no name) resolution fails, yet the run still reaches
`git clone` (`fetched = true`).  The single-template variant, whose
assignments are not `local`, does abort with exit code 1 before any
fetch, as the claim demands. -/
theorem c4_local_masking :
    resolveIdentity ("https://github.com".data) = none ∧
    (multiRun (some ("go-app".data)) ("https://github.com".data) true 0
      (some tree0) []).fetched = true ∧
    singleRun ("https://github.com".data) scratch0 true 0 tree0 [] =
      ⟨1, false, false, [], []⟩ := by decide

/-- C5: invoked with no command-line argument, the multi-template variant
prints the usage text and exits with code 1 before any network access
(`fetched = false`), emitting no other message and leaving the working
directory unmodified. -/
theorem c5_missing_argument (url : List Char) (cloneOk : Bool) (cloneCode : Nat)
    (subtree : Option (List FileEntry)) (cwd : List FileEntry) :
    multiRun none url cloneOk cloneCode subtree cwd = ⟨1, false, true, [], cwd⟩ := rfl

/-- C6: with a template name whose subdirectory is absent from the template
source, the multi-template variant prints the distinct
`... does not exist in remote` message (plus usage) and exits with code 1,
the working directory unmodified; a general clone failure instead exits
with the clone's status and prints no such message. -/
theorem c6_template_not_found (name url : List Char) (cloneCode : Nat)
    (cwd : List FileEntry) (hne : name ≠ []) :
    multiRun (some name) url true cloneCode none cwd =
      ⟨1, true, true, [notFoundMsg name], cwd⟩ ∧
    " does not exist in remote".data <:+: notFoundMsg name ∧
    ∀ subtree, multiRun (some name) url false cloneCode subtree cwd =
      ⟨cloneCode, true, false, [], cwd⟩ := by
  refine ⟨?_, ?_, fun subtree => ?_⟩
  · simp [multiRun, hne]
  · exact ⟨"template".data ++ '/' :: name, [], by simp [notFoundMsg]⟩
  · simp [multiRun, hne]

/-- Witness for C6 with the template name `go-app`. -/
theorem c6_template_not_found_witness :
    multiRun (some ("go-app".data)) url1 true 128 none [] =
      ⟨1, true, true, [notFoundMsg ("go-app".data)], []⟩ :=
  (c6_template_not_found ("go-app".data) url1 128 [] (by decide)).1

/-- C1 counterexample: with remote `https://github.com/acme/widgets.git`
the single-template variant performs no token substitution at all, so
after its run a copied template file still contains the placeholder token
and does not contain `widgets` anywhere — refuting the claim that every
such file now holds the resolved name in the token's place. -/
theorem c1_counterexample :
    ∃ f ∈ (singleRun url1 scratch0 true 0 tree0 []).cwd,
      token <:+: f.content ∧ ¬ ("widgets".data <:+: f.content) := by decide

/-- C1 (amended): in the multi-template variant the token is replaced by
the scheme-stripped remote URL `github.com/acme/widgets.git` (the global
`REPO_NAME`), not by the cleaned identity; since that value contains
`github.com/acme/widgets` as a proper prefix, every file previously
containing the token contains the identity as a substring after
substitution.  The single-template variant performs no substitution. -/
theorem c1_amended (fs : List FileEntry) (f : FileEntry) (hm : f ∈ fs)
    (ht : token <:+: f.content) :
    stripScheme url1 = "github.com/acme/widgets.git".data ∧
    substFile (stripScheme url1) f ∈ substTree (stripScheme url1) fs ∧
    "github.com/acme/widgets".data <:+: (substFile (stripScheme url1) f).content := by
  refine ⟨by decide, List.mem_map_of_mem _ hm, ?_⟩
  have h1 : stripScheme url1 <:+: replaceToken (stripScheme url1) f.content :=
    repl_infix_replaceToken _ _ ht
  have h2 : "github.com/acme/widgets".data <+: stripScheme url1 := by decide
  exact h2.isInfix.trans h1

/-- Witness for C1 (amended) on the template file `cmd/REPONAMETMPL/main.go`. -/
theorem c1_amended_witness :
    stripScheme url1 = "github.com/acme/widgets.git".data ∧
    substFile (stripScheme url1) tmplFile ∈ substTree (stripScheme url1) tree0 ∧
    "github.com/acme/widgets".data <:+: (substFile (stripScheme url1) tmplFile).content :=
  c1_amended tree0 tmplFile (by decide) (by decide)

/-- C7 counterexample: the glob `"$REPO_PATH/"*` does not match dot-prefixed
names, so a hidden top-level entry of the template subtree is not
materialized into the working directory, while its visible sibling is. -/
theorem c7_counterexample :
    hiddenFile ∉ materializeMulti sub0 [] ∧ visFile ∈ materializeMulti sub0 [] := by
  decide

/-- C7 (amended): materialization copies every glob-visible entry (those
whose top-level component is not dot-prefixed) of the fetched subdirectory
to the same relative path with the same content, overwriting a pre-existing
file at that path; every file of the result comes either from the visible
part of the subtree or untouched from the prior working directory; files at
paths not claimed by a visible subtree entry are preserved. -/
theorem c7_amended :
    (∀ (sub cwd : List FileEntry) (f : FileEntry),
      f ∈ sub → visible f = true → f ∈ materializeMulti sub cwd) ∧
    (∀ (sub cwd : List FileEntry) (f : FileEntry),
      f ∈ materializeMulti sub cwd → (f ∈ sub ∧ visible f = true) ∨ f ∈ cwd) ∧
    (∀ (sub cwd : List FileEntry) (g : FileEntry),
      g ∈ cwd → (∀ f ∈ sub, visible f = true → f.path ≠ g.path) →
        g ∈ materializeMulti sub cwd) := by
  refine ⟨?_, ?_, ?_⟩
  · intro sub cwd f hf hv
    exact List.mem_append_right _ (List.mem_filter.mpr ⟨hf, hv⟩)
  · intro sub cwd f hf
    rcases List.mem_append.mp hf with h | h
    · exact Or.inr (List.mem_filter.mp h).1
    · exact Or.inl ⟨(List.mem_filter.mp h).1, (List.mem_filter.mp h).2⟩
  · intro sub cwd g hg hno
    apply List.mem_append_left
    apply List.mem_filter.mpr
    refine ⟨hg, ?_⟩
    cases hb : (sub.filter (fun f => visible f)).any (fun f => f.path == g.path) with
    | false => rfl
    | true =>
      obtain ⟨f, hfm, hfe⟩ := List.any_eq_true.mp hb
      obtain ⟨hfs, hfv⟩ := List.mem_filter.mp hfm
      exact absurd (beq_iff_eq.mp hfe) (hno f hfs hfv)

/-- Witness for C7 (amended): the visible template file is materialized. -/
theorem c7_amended_witness : tmplFile ∈ materializeMulti tree0 [] :=
  c7_amended.1 tree0 [] tmplFile (by decide) (by decide)

/-- C8 counterexample: a repository literally named `REPONAMETMPL` resolves
successfully, its scheme-stripped remote URL (the value the script
substitutes) contains the token, and substituting twice over a one-file
tree differs from substituting once — so substitution is not idempotent
for every resolved repository name. -/
theorem c8_counterexample :
    resolveIdentity urlTok =
      some ⟨"github.com".data, "acme".data, "REPONAMETMPL".data⟩ ∧
    substTree (stripScheme urlTok) (substTree (stripScheme urlTok) tokTree) ≠
      substTree (stripScheme urlTok) tokTree := by decide

/-- C8 (amended): the substitution pass is the identity on token-free
contents, hence applying it twice equals applying it once whenever the
first pass's output no longer contains the token (which the spec's own
rationale assumes); it fails precisely when the substituted value
reintroduces the token, e.g. for a repository named `REPONAMETMPL`. -/
theorem c8_amended (repl : List Char) (fs : List FileEntry)
    (h : ∀ f ∈ substTree repl fs, ¬ token <:+: f.content) :
    substTree repl (substTree repl fs) = substTree repl fs :=
  substTree_id_of_no_token repl (substTree repl fs) h

/-- Witness for C8 (amended): with the scenario-1 replacement value the
output is token-free and a second pass changes nothing. -/
theorem c8_amended_witness :
    substTree ("github.com/acme/widgets.git".data)
        (substTree ("github.com/acme/widgets.git".data) tree0) =
      substTree ("github.com/acme/widgets.git".data) tree0 :=
  c8_amended ("github.com/acme/widgets.git".data) tree0 (by decide)

/-- C9: the substitution pass only alters occurrences of the exact
placeholder token — a file whose contents contain no occurrence of
`REPONAMETMPL` is byte-for-byte unchanged (same path, same content). -/
theorem c9_frame (repl : List Char) (f : FileEntry)
    (h : ¬ token <:+: f.content) : substFile repl f = f :=
  substFile_id_of_no_token repl f h

/-- Witness for C9: a token-free README is untouched by substitution with
the scenario-1 replacement value. -/
theorem c9_frame_witness :
    substFile ("github.com/acme/widgets.git".data) plainFile = plainFile :=
  c9_frame ("github.com/acme/widgets.git".data) plainFile (by decide)

/-- C10: token substitution rewrites contents only and never renames files
or directories: the substitution pass preserves the path of every file, and
in the end-to-end multi-template run on the real template tree the path
`cmd/REPONAMETMPL/main.go` — whose directory component equals the token —
is still present, with that name, after the run completes. -/
theorem c10_paths_preserved :
    (∀ (repl : List Char) (fs : List FileEntry),
      (substTree repl fs).map FileEntry.path = fs.map FileEntry.path) ∧
    "cmd/REPONAMETMPL/main.go".data ∈
      ((multiRun (some ("go-app".data)) url1 true 0 (some tree0) []).cwd.map
        FileEntry.path) := by
  constructor
  · intro repl fs
    induction fs with
    | nil => rfl
    | cons f fs ih =>
      simp only [substTree, List.map_cons] at ih ⊢
      rw [ih]
      rfl
  · decide
